import Mathlib

/-!
Verification of `tools/generate_qr.py`: a shallow embedding of the tool's own
logic (content-type detection, content normalization, filename slug
construction, output-path collision resolution, and the temp-file discipline
of PDF creation), together with theorems settling the specification claims.

Machine strings are modelled as Lean `String`s (lists of characters); the
ASCII character classes of Python's `re` module (`\w`, `\s`, `\d`) and of
`str.strip` / `str.lower` / `str.upper` are modelled on their ASCII range,
which covers every character the patterns themselves mention.
-/

/-- The whitespace characters of Python's `str.strip` and of the regex class
`\s` (ASCII range): space, tab, newline, carriage return, vertical tab,
form feed. -/
def isSpaceChar (c : Char) : Bool :=
  c == ' ' || c == '\t' || c == '\n' || c == '\r' || c == '\x0b' || c == '\x0c'

/-- The regex class `\w` (ASCII range): letters, digits and underscore. -/
def isWordChar (c : Char) : Bool :=
  c.isAlphanum || c == '_'

/-- Python `str.strip()` on a character list: drop whitespace from both
ends.  The trailing side uses Mathlib's `List.rdropWhile`. -/
def pyStripL (l : List Char) : List Char :=
  (l.dropWhile isSpaceChar).rdropWhile isSpaceChar

/-- Python `str.strip()`. -/
def pyStrip (s : String) : String :=
  ⟨pyStripL s.data⟩

/-- A character list with no leading and no trailing whitespace (the
fixed points of stripping). -/
def noEdgeSpace (l : List Char) : Bool :=
  (match l.head? with
    | some c => !isSpaceChar c
    | none => true) &&
  (match l.getLast? with
    | some c => !isSpaceChar c
    | none => true)

/-- Case-insensitive test that `s` starts with `t` (`t` given in lower case):
models `re.match(t_regex, s, re.IGNORECASE)` for a literal pattern, and
`s.lower().startswith(t)`. -/
def startsWithCI (s t : String) : Bool :=
  t.data.isPrefixOf (s.data.map Char.toLower)

/-- Models `s.upper().startswith(t)` for an upper-case literal `t`. -/
def upperStartsWith (s t : String) : Bool :=
  t.data.isPrefixOf (s.data.map Char.toUpper)

/-- Matchability of the regex `^[^@\s]+@[^@\s]+\.[^@\s]+$` from
`detect_type`: exactly one `@`, a nonempty whitespace-free local part, and a
whitespace-free domain part containing a dot that is neither its first nor
its last character. -/
def emailShape (s : String) : Bool :=
  let l := s.data
  let a := l.takeWhile (fun c => c != '@')
  let b := (l.dropWhile (fun c => c != '@')).drop 1
  l.contains '@' && !a.isEmpty && a.all (fun c => !isSpaceChar c) &&
    b.all (fun c => c != '@' && !isSpaceChar c) && ((b.drop 1).dropLast).contains '.'

/-- Matchability of the regex `^\+?[\d\s\-\(\)]{7,}$` from `detect_type`:
after an optional leading `+`, at least seven characters, all drawn from
digits, whitespace, hyphens and parentheses. -/
def phoneShape (s : String) : Bool :=
  let l := match s.data with
    | '+' :: rest => rest
    | l => l
  decide (7 ≤ l.length) &&
    l.all (fun c => c.isDigit || isSpaceChar c || c == '-' || c == '(' || c == ')')

/-- `detect_type` from `tools/generate_qr.py`: strip the content, then run
the ordered first-match chain of pattern checks. -/
def detect_type (content : String) : String :=
  let c := pyStrip content
  if upperStartsWith c "WIFI:" then "wifi"
  else if startsWithCI c "http://" || startsWithCI c "https://" then "url"
  else if startsWithCI c "www." then "url"
  else if startsWithCI c "mailto:" then "email"
  else if emailShape c then "email"
  else if startsWithCI c "tel:" then "phone"
  else if phoneShape c then "phone"
  else "text"

/-- The classifier exactly as the spec (§4.1) and claim C1 word it: the same
first-match chain of pattern checks, evaluated directly on the argument (the
claim does not mention the stripping that `detect_type` performs first). -/
def classifySpec (c : String) : String :=
  if upperStartsWith c "WIFI:" then "wifi"
  else if startsWithCI c "http://" || startsWithCI c "https://" then "url"
  else if startsWithCI c "www." then "url"
  else if startsWithCI c "mailto:" then "email"
  else if emailShape c then "email"
  else if startsWithCI c "tel:" then "phone"
  else if phoneShape c then "phone"
  else "text"

/-- `format_content` from `tools/generate_qr.py`: strip, then add the scheme
that the resolved type requires if it is not already present
(case-insensitively). -/
def format_content (content : String) (qr_type : String) : String :=
  let c := pyStrip content
  if qr_type = "url" then
    if startsWithCI c "http://" || startsWithCI c "https://" then c else "https://" ++ c
  else if qr_type = "email" then
    if startsWithCI c "mailto:" then c else "mailto:" ++ c
  else if qr_type = "phone" then
    if startsWithCI c "tel:" then c else "tel:" ++ c
  else c

/-- Helper for `collapseWs`: the flag records whether the previous character
was part of a whitespace run that has already emitted its hyphen. -/
def collapseAux : Bool → List Char → List Char
  | _, [] => []
  | inRun, c :: rest =>
    if isSpaceChar c then
      if inRun then collapseAux true rest else '-' :: collapseAux true rest
    else c :: collapseAux false rest

/-- `re.sub(r'\s+', '-', l)`: replace every maximal run of whitespace by a
single hyphen. -/
def collapseWs (l : List Char) : List Char :=
  collapseAux false l

/-- The characters kept by `re.sub(r'[^\w\s\-]', '', label)`. -/
def keepChar (c : Char) : Bool :=
  isWordChar c || isSpaceChar c || c == '-'

/-- The date-free part of `make_filename`:
`re.sub(r'[^\w\s\-]', '', label)[:50].strip()` followed by
`re.sub(r'\s+', '-', safe).lower()` with the `"qr-code"` fallback. -/
def slug_part (label : String) : String :=
  let safe := pyStripL ((label.data.filter keepChar).take 50)
  let safe := (collapseWs safe).map Char.toLower
  if safe = [] then "qr-code" else ⟨safe⟩

/-- `make_filename` from `tools/generate_qr.py`; `today` stands for the
externally supplied `date.today().isoformat()` string. -/
def make_filename (label : String) (today : String) : String :=
  slug_part label ++ "_" ++ today

/-- The slug pipeline exactly as the spec (§4.3) and claim C5 word it:
remove characters other than word characters, whitespace and hyphens;
truncate to 50 characters; trim surrounding whitespace; collapse each
whitespace run to one hyphen; lowercase; fall back to `qr-code` when empty;
append `_` and the date. -/
def makeFilenameSpec (label : String) (today : String) : String :=
  let s1 := label.data.filter (fun c => isWordChar c || isSpaceChar c || c == '-')
  let s2 := s1.take 50
  let s3 := pyStripL s2
  let s4 := collapseWs s3
  let s5 := s4.map Char.toLower
  (if s5 = [] then "qr-code" else ⟨s5⟩) ++ "_" ++ today

/-- `os.path.join` for the paths this tool builds (second component
relative unless it starts with a separator). -/
def pathJoin (a b : String) : String :=
  if b.data.head? = some '/' then b
  else if a.data = [] then b
  else if a.data.getLast? = some '/' then a ++ b
  else a ++ "/" ++ b

/-- The body of the `while` loop of `resolve_paths`, with explicit fuel
bounding the number of collision iterations the unbounded Python loop may
take.  `fs` is the filesystem: the set of paths that exist
(`os.path.exists`). -/
def resolveGo (fs : String → Bool) (archive_dir base_name : String) :
    Nat → String → String → Nat → Option (String × String)
  | 0, png_path, pdf_path, _ =>
    if fs png_path || fs pdf_path then none else some (png_path, pdf_path)
  | Nat.succ fuel, png_path, pdf_path, counter =>
    if fs png_path || fs pdf_path then
      resolveGo fs archive_dir base_name fuel
        (pathJoin archive_dir (base_name ++ "-" ++ toString counter ++ ".png"))
        (pathJoin archive_dir (base_name ++ "-" ++ toString counter ++ ".pdf"))
        (counter + 1)
    else some (png_path, pdf_path)

/-- `resolve_paths` from `tools/generate_qr.py`: start from the plain
`base_name` stem and scan `base_name-2`, `base_name-3`, … until both the
`.png` and the `.pdf` path are absent. -/
def resolve_paths (fs : String → Bool) (archive_dir base_name : String)
    (fuel : Nat) : Option (String × String) :=
  resolveGo fs archive_dir base_name fuel
    (pathJoin archive_dir (base_name ++ ".png"))
    (pathJoin archive_dir (base_name ++ ".pdf")) 2

/-- The stem tried at iteration `i` of `resolve_paths`: `base_name` first,
then `base_name-2`, `base_name-3`, … -/
def stemName (base_name : String) : Nat → String
  | 0 => base_name
  | Nat.succ k => base_name ++ "-" ++ toString (k + 2)

/-- The `.png` path of the `i`-th candidate stem. -/
def pngOf (archive_dir base_name : String) (i : Nat) : String :=
  pathJoin archive_dir (stemName base_name i ++ ".png")

/-- The `.pdf` path of the `i`-th candidate stem. -/
def pdfOf (archive_dir base_name : String) (i : Nat) : String :=
  pathJoin archive_dir (stemName base_name i ++ ".pdf")

/-- Add a path to the filesystem (a file is created or overwritten). -/
def fsAdd (fs : String → Bool) (p : String) : String → Bool :=
  fun q => q == p || fs q

/-- Remove a path from the filesystem (`os.unlink`). -/
def fsRemove (fs : String → Bool) (p : String) : String → Bool :=
  fun q => !(q == p) && fs q

/-- The nondeterministic environment of one `create_pdf` run: the name the
`tempfile.NamedTemporaryFile` call picks, and whether each fallible step
(`qr_image.save`, `pdf.image`, the caption cells, `pdf.output`) succeeds or
raises. -/
structure PdfRunEnv where
  tmpName : String
  saveOk : Bool
  imageOk : Bool
  captionOk : Bool
  outputOk : Bool

/-- The filesystem effect of `create_pdf` from `tools/generate_qr.py`: the
temp file is created (`delete=False`), the QR image is saved into it and
embedded inside a `try` block, and the `finally` block unlinks the temp file
before the remaining steps run; `pdf.output` writes the output path.  The
first component records whether the call returned normally (`ok`) or
propagated an exception (`error`); the second is the filesystem afterwards. -/
def create_pdf (fs : String → Bool) (env : PdfRunEnv) (output_path : String) :
    Except Unit Unit × (String → Bool) :=
  let fs1 := fsAdd fs env.tmpName
  let fsDone := fsRemove fs1 env.tmpName
  if !env.saveOk then (Except.error (), fsDone)
  else if !env.imageOk then (Except.error (), fsDone)
  else if !env.captionOk then (Except.error (), fsDone)
  else if env.outputOk then (Except.ok (), fsAdd fsDone output_path)
  else (Except.error (), fsDone)

/- ------------------------------------------------------------------ -/
/- Whitespace-stripping infrastructure                                 -/
/- ------------------------------------------------------------------ -/

theorem stripL_head {l : List Char} {c : Char}
    (h : (pyStripL l).head? = some c) : isSpaceChar c = false := by
  obtain ⟨t, ht⟩ := List.head?_eq_some_iff.1 h
  obtain ⟨u, hu⟩ := List.rdropWhile_prefix isSpaceChar (l.dropWhile isSpaceChar)
  have hm : l.dropWhile isSpaceChar = c :: (t ++ u) := by
    rw [← hu]
    show pyStripL l ++ u = c :: (t ++ u)
    rw [ht]
    exact List.cons_append c t u
  have hd := List.head?_dropWhile_not isSpaceChar l
  rw [hm] at hd
  exact hd

theorem stripL_last {l : List Char} {c : Char}
    (h : (pyStripL l).getLast? = some c) : isSpaceChar c = false := by
  have hne : pyStripL l ≠ [] := by
    intro he; rw [he] at h; exact Option.noConfusion h
  have hlast := List.rdropWhile_last_not isSpaceChar (l.dropWhile isSpaceChar) hne
  rw [List.getLast?_eq_getLast _ hne] at h
  have heq : (pyStripL l).getLast hne = c := Option.some.inj h
  rw [← heq]
  simpa using hlast

theorem stripL_eq_self {l : List Char}
    (h1 : ∀ c, l.head? = some c → isSpaceChar c = false)
    (h2 : ∀ c, l.getLast? = some c → isSpaceChar c = false) :
    pyStripL l = l := by
  show (l.dropWhile isSpaceChar).rdropWhile isSpaceChar = l
  cases l with
  | nil => rfl
  | cons a t =>
    have ha : isSpaceChar a = false := h1 a rfl
    rw [List.dropWhile_cons_of_neg (by simp [ha])]
    rw [List.rdropWhile_eq_self_iff]
    intro hl
    have := h2 _ (List.getLast?_eq_getLast _ hl)
    simp [this]

theorem stripL_idem (l : List Char) : pyStripL (pyStripL l) = pyStripL l :=
  stripL_eq_self (fun _ h => stripL_head h) (fun _ h => stripL_last h)

theorem pyStrip_idem (s : String) : pyStrip (pyStrip s) = pyStrip s :=
  congrArg String.mk (stripL_idem s.data)

theorem stripL_append {pre m : List Char}
    (hh : ∀ c, pre.head? = some c → isSpaceChar c = false)
    (hl : ∀ c, pre.getLast? = some c → isSpaceChar c = false)
    (hm : pyStripL m = m) :
    pyStripL (pre ++ m) = pre ++ m := by
  apply stripL_eq_self
  · intro c hc
    cases pre with
    | nil =>
      exact stripL_head (l := m) (by rw [hm]; simpa using hc)
    | cons a t =>
      exact hh c (by simpa using hc)
  · intro c hc
    rw [List.getLast?_append] at hc
    cases hmg : m.getLast? with
    | none =>
      rw [hmg] at hc
      exact hl c (by simpa using hc)
    | some d =>
      rw [hmg] at hc
      have : d = c := by simpa using hc
      subst this
      exact stripL_last (l := m) (by rw [hm]; exact hmg)

/- ------------------------------------------------------------------ -/
/- Classifier claims                                                   -/
/- ------------------------------------------------------------------ -/

theorem classifySpec_cases (s : String) :
    classifySpec s = "wifi" ∨ classifySpec s = "url" ∨ classifySpec s = "email" ∨
      classifySpec s = "phone" ∨ classifySpec s = "text" := by
  unfold classifySpec
  repeat' split
  all_goals simp

theorem detect_type_eq_classify_strip (c : String) :
    detect_type c = classifySpec (pyStrip c) := rfl

/-- C1 (counterexample): the claim evaluates the pattern chain on the input
string itself; on `" WIFI:x"` that chain yields `text` (no pattern matches
the leading space), while `detect_type` strips first and returns `wifi`. -/
theorem detect_type_order_cex :
    detect_type " WIFI:x" = "wifi" ∧ classifySpec " WIFI:x" = "text" := by decide

/-- C1 (amended): `detect_type` is total and returns exactly one of
wifi/url/email/phone/text — never `other` — determined by first-match-wins
evaluation of the claimed pattern chain applied to the whitespace-stripped
input. -/
theorem detect_type_total_ordered (c : String) :
    detect_type c = classifySpec (pyStrip c) ∧
    (detect_type c = "wifi" ∨ detect_type c = "url" ∨ detect_type c = "email" ∨
      detect_type c = "phone" ∨ detect_type c = "text") ∧
    detect_type c ≠ "other" := by
  have he : detect_type c = classifySpec (pyStrip c) := rfl
  have h := classifySpec_cases (pyStrip c)
  refine ⟨he, by rw [he]; exact h, ?_⟩
  rw [he]
  rcases h with h | h | h | h | h <;> rw [h] <;> decide

/-- C8: the worked phone example: `+1-555-123-4567` is detected as a phone
number and normalized to `tel:+1-555-123-4567`. -/
theorem phone_example_end_to_end :
    detect_type "+1-555-123-4567" = "phone" ∧
    format_content "+1-555-123-4567" "phone" = "tel:+1-555-123-4567" := by decide

/-- C10: classification is invariant under leading/trailing whitespace, and
an all-whitespace (in particular empty) string is classified as text. -/
theorem detect_type_strip_invariant (c : String) :
    detect_type (pyStrip c) = detect_type c ∧
    (c.data.all isSpaceChar = true → detect_type c = "text") := by
  constructor
  · show classifySpec (pyStrip (pyStrip c)) = classifySpec (pyStrip c)
    rw [pyStrip_idem]
  · intro h
    show classifySpec (pyStrip c) = "text"
    have h1 : c.data.dropWhile isSpaceChar = [] :=
      List.dropWhile_eq_nil_iff.2 (fun x hx => List.all_eq_true.1 h x hx)
    have h2 : pyStrip c = "" := by
      show String.mk (pyStripL c.data) = ""
      unfold pyStripL
      rw [h1]
      rfl
    rw [h2]
    decide

theorem detect_type_strip_invariant_w :
    detect_type (pyStrip " a ") = detect_type " a " ∧ detect_type "  " = "text" :=
  ⟨(detect_type_strip_invariant " a ").1, (detect_type_strip_invariant "  ").2 (by decide)⟩

/- ------------------------------------------------------------------ -/
/- Normalizer claims                                                   -/
/- ------------------------------------------------------------------ -/

theorem noEdgeSpace_head {l : List Char} {c : Char}
    (hp : noEdgeSpace l = true) (hc : l.head? = some c) : isSpaceChar c = false := by
  unfold noEdgeSpace at hp
  rw [Bool.and_eq_true] at hp
  have h1 := hp.1
  rw [hc] at h1
  simpa using h1

theorem noEdgeSpace_last {l : List Char} {c : Char}
    (hp : noEdgeSpace l = true) (hc : l.getLast? = some c) : isSpaceChar c = false := by
  unfold noEdgeSpace at hp
  rw [Bool.and_eq_true] at hp
  have h2 := hp.2
  rw [hc] at h2
  simpa using h2

theorem pyStrip_append (pre m : String)
    (hp : noEdgeSpace pre.data = true) (hm : pyStrip m = m) :
    pyStrip (pre ++ m) = pre ++ m := by
  have hmL : pyStripL m.data = m.data := congrArg String.data hm
  show String.mk (pyStripL (pre ++ m).data) = pre ++ m
  rw [String.data_append,
    stripL_append (fun c hc => noEdgeSpace_head hp hc) (fun c hc => noEdgeSpace_last hp hc) hmL]
  rfl

theorem startsWithCI_append_self (pre m : String)
    (h : pre.data.map Char.toLower = pre.data) :
    startsWithCI (pre ++ m) pre = true := by
  unfold startsWithCI
  rw [String.data_append, List.map_append, h, List.isPrefixOf_iff_prefix]
  exact List.prefix_append _ _

/-- C7 (counterexample): `"http://a "` starts with `http://`, yet
`format_content` does not return it unchanged — it strips the trailing
space. -/
theorem format_url_cex :
    startsWithCI "http://a " "http://" = true ∧
    format_content "http://a " "url" = "http://a" ∧
    format_content "http://a " "url" ≠ "http://a " := by decide

/-- C7 (amended): with type url, `format_content` returns the
whitespace-stripped content when that stripped content already starts with
`http://` or `https://` (case-insensitively), and otherwise prepends
`https://` to the stripped content; either way the result carries an
`http://` or `https://` prefix. -/
theorem format_url_branch (c : String) :
    format_content c "url" =
      (if startsWithCI (pyStrip c) "http://" || startsWithCI (pyStrip c) "https://"
        then pyStrip c else "https://" ++ pyStrip c) ∧
    (startsWithCI (format_content c "url") "http://" = true ∨
      startsWithCI (format_content c "url") "https://" = true) := by
  have he : format_content c "url" =
      (if startsWithCI (pyStrip c) "http://" || startsWithCI (pyStrip c) "https://"
        then pyStrip c else "https://" ++ pyStrip c) := by
    unfold format_content
    simp
  refine ⟨he, ?_⟩
  rw [he]
  split
  · rename_i h
    simpa using h
  · exact Or.inr (startsWithCI_append_self "https://" (pyStrip c) (by decide))

/-- C9: `format_content` strips the content before any prefix logic: it is
invariant under pre-stripping, returns the stripped content for every type
other than url/email/phone, and its result never carries leading or
trailing whitespace (it is a fixed point of stripping). -/
theorem format_content_strip_inv (c t : String) :
    format_content c t = format_content (pyStrip c) t ∧
    ((t ≠ "url" ∧ t ≠ "email" ∧ t ≠ "phone") → format_content c t = pyStrip c) ∧
    pyStrip (format_content c t) = format_content c t := by
  refine ⟨?_, ?_, ?_⟩
  · unfold format_content
    rw [pyStrip_idem]
  · intro h
    unfold format_content
    rw [if_neg h.1, if_neg h.2.1, if_neg h.2.2]
  · unfold format_content
    dsimp only
    split
    · split
      · exact pyStrip_idem c
      · exact pyStrip_append "https://" (pyStrip c) (by decide) (pyStrip_idem c)
    · split
      · split
        · exact pyStrip_idem c
        · exact pyStrip_append "mailto:" (pyStrip c) (by decide) (pyStrip_idem c)
      · split
        · split
          · exact pyStrip_idem c
          · exact pyStrip_append "tel:" (pyStrip c) (by decide) (pyStrip_idem c)
        · exact pyStrip_idem c

theorem format_content_strip_inv_w :
    format_content " x " "text" = pyStrip " x " :=
  (format_content_strip_inv " x " "text").2.1 (by decide)

/-- C4: however `create_pdf` exits — normally or with an exception raised by
any of its fallible steps — the temporary PNG it created for embedding is
absent from the filesystem afterwards. -/
theorem create_pdf_tmp_gone (fs : String → Bool) (env : PdfRunEnv) (out : String)
    (h : env.tmpName ≠ out) :
    ((create_pdf fs env out).2) env.tmpName = false := by
  unfold create_pdf
  repeat' split
  all_goals simp [fsAdd, fsRemove, h]

theorem create_pdf_tmp_gone_w :
    ((create_pdf (fun _ => false) ⟨"tmp.png", true, true, true, true⟩ "out.pdf").2)
      "tmp.png" = false :=
  create_pdf_tmp_gone _ _ _ (by decide)

/- ------------------------------------------------------------------ -/
/- Character arithmetic and prefix preservation under stripping        -/
/- ------------------------------------------------------------------ -/

theorem charEq_of_toNat {c d : Char} (h : c.toNat = d.toNat) : c = d :=
  Char.ext (UInt32.ext h)

theorem isSpaceChar_iff_toNat (c : Char) :
    isSpaceChar c = true ↔ (c.toNat = 32 ∨ c.toNat = 9 ∨ c.toNat = 10 ∨
      c.toNat = 13 ∨ c.toNat = 11 ∨ c.toNat = 12) := by
  unfold isSpaceChar
  simp only [Bool.or_eq_true, beq_iff_eq]
  constructor
  · rintro (((((rfl | rfl) | rfl) | rfl) | rfl) | rfl)
    · exact Or.inl rfl
    · exact Or.inr (Or.inl rfl)
    · exact Or.inr (Or.inr (Or.inl rfl))
    · exact Or.inr (Or.inr (Or.inr (Or.inl rfl)))
    · exact Or.inr (Or.inr (Or.inr (Or.inr (Or.inl rfl))))
    · exact Or.inr (Or.inr (Or.inr (Or.inr (Or.inr rfl))))
  · rintro (h | h | h | h | h | h)
    · exact Or.inl (Or.inl (Or.inl (Or.inl (Or.inl (@charEq_of_toNat c ' ' h)))))
    · exact Or.inl (Or.inl (Or.inl (Or.inl (Or.inr (@charEq_of_toNat c '\t' h)))))
    · exact Or.inl (Or.inl (Or.inl (Or.inr (@charEq_of_toNat c '\n' h))))
    · exact Or.inl (Or.inl (Or.inr (@charEq_of_toNat c '\r' h)))
    · exact Or.inl (Or.inr (@charEq_of_toNat c '\x0b' h))
    · exact Or.inr (@charEq_of_toNat c '\x0c' h)

theorem isSpaceChar_false_of_toNat {c : Char} (h : 33 ≤ c.toNat) :
    isSpaceChar c = false := by
  rw [Bool.eq_false_iff, Ne, isSpaceChar_iff_toNat]
  omega

theorem toNat_ofNat_lt {n : Nat} (h : n < 55296) : (Char.ofNat n).toNat = n := by
  unfold Char.ofNat
  rw [dif_pos (Or.inl h)]
  rfl

theorem isSpaceChar_toUpper (c : Char) :
    isSpaceChar (Char.toUpper c) = isSpaceChar c := by
  unfold Char.toUpper
  dsimp only
  split
  · rename_i h
    have hn : (Char.ofNat (c.toNat - 32)).toNat = c.toNat - 32 := toNat_ofNat_lt (by omega)
    have hu : isSpaceChar (Char.ofNat (c.toNat - 32)) = false :=
      isSpaceChar_false_of_toNat (by omega)
    have hc : isSpaceChar c = false := isSpaceChar_false_of_toNat (by omega)
    rw [hc, hu]
  · rfl

theorem rdropWhile_append_rtakeWhile (p : Char → Bool) (l : List Char) :
    l.rdropWhile p ++ l.rtakeWhile p = l := by
  rw [List.rdropWhile, List.rtakeWhile, ← List.reverse_append,
    List.takeWhile_append_dropWhile, List.reverse_reverse]

theorem prefix_map_rdropWhile {P m : List Char} {f : Char → Char}
    (hP : ∀ c ∈ P, isSpaceChar c = false)
    (hf : ∀ c, isSpaceChar (f c) = isSpaceChar c)
    (hpre : P <+: m.map f) :
    P <+: (m.rdropWhile isSpaceChar).map f := by
  have hsplit : m.rdropWhile isSpaceChar ++ m.rtakeWhile isSpaceChar = m :=
    rdropWhile_append_rtakeWhile isSpaceChar m
  have hms : m.map f = (m.rdropWhile isSpaceChar).map f ++ (m.rtakeWhile isSpaceChar).map f := by
    rw [← List.map_append, hsplit]
  have hq : (m.rdropWhile isSpaceChar).map f <+: m.map f :=
    List.IsPrefix.map f ( List.rdropWhile_prefix _ _)
  rcases List.prefix_or_prefix_of_prefix hpre hq with h | h
  · exact h
  · obtain ⟨t, ht⟩ := h
    obtain ⟨s, hs⟩ := hpre
    rw [hms, ← ht, List.append_assoc] at hs
    have hts : t ++ s = (m.rtakeWhile isSpaceChar).map f := List.append_cancel_left hs
    cases t with
    | nil =>
      rw [List.append_nil] at ht
      rw [← ht]
    | cons c t2 =>
      exfalso
      have hcP : c ∈ P := by
        rw [← ht]
        exact List.mem_append_right _ (List.mem_cons_self c t2)
      have hcm : c ∈ (m.rtakeWhile isSpaceChar).map f := by
        rw [← hts]
        exact List.mem_append_left _ (List.mem_cons_self c t2)
      obtain ⟨d, hd, hdc⟩ := List.mem_map.1 hcm
      have : isSpaceChar c = true := by
        rw [← hdc, hf d]
        exact List.mem_rtakeWhile_imp hd
      rw [hP c hcP] at this
      exact Bool.noConfusion this

theorem prefix_map_stripL {P l : List Char} {f : Char → Char}
    (hP : ∀ c ∈ P, isSpaceChar c = false)
    (hf : ∀ c, isSpaceChar (f c) = isSpaceChar c)
    (hpre : P <+: l.map f) :
    P <+: (pyStripL l).map f := by
  cases P with
  | nil => exact List.nil_prefix
  | cons p0 P2 =>
    obtain ⟨t, ht⟩ := hpre
    cases l with
    | nil => exact absurd ht (by simp)
    | cons x l2 =>
      have hx : f x = p0 := by
        have := congrArg List.head? ht
        simpa using this.symm
      have hxs : isSpaceChar x = false := by
        rw [← hf x, hx]
        exact hP p0 (List.mem_cons_self _ _)
      show (p0 :: P2) <+: ((List.dropWhile isSpaceChar (x :: l2)).rdropWhile isSpaceChar).map f
      rw [List.dropWhile_cons_of_neg (by simp [hxs])]
      exact prefix_map_rdropWhile hP hf ⟨t, ht⟩

/- ------------------------------------------------------------------ -/
/- WIFI and email claims                                               -/
/- ------------------------------------------------------------------ -/

/-- C2 (counterexample): `"WIFI:x "` starts with `WIFI:`, yet
`format_content` with type wifi does not return it unchanged — it strips
the trailing space. -/
theorem wifi_identity_cex :
    upperStartsWith "WIFI:x " "WIFI:" = true ∧
    format_content "WIFI:x " "wifi" = "WIFI:x" ∧
    format_content "WIFI:x " "wifi" ≠ "WIFI:x " := by decide

/-- C2 (amended): every string starting with `WIFI:` (any letter case) is
detected as wifi, and `format_content` with type wifi (likewise text and
other) returns the whitespace-stripped content — the identity exactly on
contents with no surrounding whitespace. -/
theorem wifi_detect_passthrough (s t : String)
    (hw : upperStartsWith s "WIFI:" = true)
    (ht : t = "wifi" ∨ t = "text" ∨ t = "other") :
    detect_type s = "wifi" ∧ format_content s t = pyStrip s := by
  constructor
  · show classifySpec (pyStrip s) = "wifi"
    have hw2 : upperStartsWith (pyStrip s) "WIFI:" = true := by
      unfold upperStartsWith at hw ⊢
      rw [List.isPrefixOf_iff_prefix] at hw ⊢
      show "WIFI:".data <+: (pyStripL s.data).map Char.toUpper
      exact prefix_map_stripL (by decide) isSpaceChar_toUpper hw
    unfold classifySpec
    rw [if_pos hw2]
  · rcases ht with rfl | rfl | rfl
    · rfl
    · rfl
    · rfl

theorem wifi_detect_passthrough_w :
    detect_type "WIFI:abc" = "wifi" ∧ format_content "WIFI:abc" "text" = pyStrip "WIFI:abc" :=
  wifi_detect_passthrough "WIFI:abc" "text" (by decide) (by decide)

theorem format_email_eq (x : String) :
    format_content x "email" =
      (if startsWithCI (pyStrip x) "mailto:" = true then pyStrip x
        else "mailto:" ++ pyStrip x) := by
  unfold format_content
  dsimp only
  rw [if_neg (by decide), if_pos rfl]

/-- C6 (counterexample): `"wifi:a@b.c"` matches the single-@ email shape,
but `detect_type` classifies it as wifi — the `WIFI:` check fires first. -/
theorem email_shape_cex :
    emailShape "wifi:a@b.c" = true ∧ detect_type "wifi:a@b.c" = "wifi" ∧
    detect_type "wifi:a@b.c" ≠ "email" := by decide

/-- C6 (amended): a string of the single-@ email shape that does not also
match one of the earlier patterns (`WIFI:`, `http://`, `https://`, `www.`
prefixes) is detected as email; `format_content` with type email prepends
`mailto:` to the stripped content exactly when the stripped content does not
already carry it (case-insensitively), and this normalization is
idempotent. -/
theorem email_detect_format (s c : String)
    (hshape : emailShape s = true)
    (hw : upperStartsWith s "WIFI:" = false)
    (h1 : startsWithCI s "http://" = false)
    (h2 : startsWithCI s "https://" = false)
    (h3 : startsWithCI s "www." = false) :
    detect_type s = "email" ∧
    format_content c "email" =
      (if startsWithCI (pyStrip c) "mailto:" = true then pyStrip c
        else "mailto:" ++ pyStrip c) ∧
    format_content (format_content c "email") "email" = format_content c "email" := by
  refine ⟨?_, format_email_eq c, ?_⟩
  · -- every character of an email-shaped string is non-whitespace,
    -- so stripping is the identity and the chain reaches the shape check
    have hns : ∀ x ∈ s.data, isSpaceChar x = false := by
      unfold emailShape at hshape
      dsimp only at hshape
      simp only [Bool.and_eq_true] at hshape
      obtain ⟨⟨⟨⟨hat, hne⟩, hall⟩, hb⟩, hdot⟩ := hshape
      intro x hx
      have hdec : s.data.takeWhile (fun c => c != '@') ++
          s.data.dropWhile (fun c => c != '@') = s.data :=
        List.takeWhile_append_dropWhile _ _
      rw [← hdec] at hx
      rcases List.mem_append.1 hx with hx | hx
      · have := List.all_eq_true.1 hall x hx
        simpa using this
      · cases hdw : s.data.dropWhile (fun c => c != '@') with
        | nil =>
          exfalso
          have hmem : '@' ∈ s.data := by
            have : List.elem '@' s.data = true := hat
            exact List.elem_iff.1 this
          rw [← hdec, hdw, List.append_nil] at hmem
          have := List.mem_takeWhile_imp hmem
          simp at this
        | cons d rest =>
          have hd : d = '@' := by
            have hq := List.head?_dropWhile_not (fun c => c != '@') s.data
            rw [hdw] at hq
            simpa using hq
          rw [hdw] at hx
          rcases List.mem_cons.1 hx with rfl | hx
          · rw [hd]
            decide
          · have hxb : x ∈ (s.data.dropWhile (fun c => c != '@')).drop 1 := by
              rw [hdw]
              simpa using hx
            have := List.all_eq_true.1 hb x hxb
            simp only [Bool.and_eq_true] at this
            simpa using this.2
    have hstrip : pyStrip s = s := by
      show String.mk (pyStripL s.data) = s
      rw [stripL_eq_self ?hh ?hl]
      case hh =>
        intro x hx
        obtain ⟨ys, hys⟩ := List.head?_eq_some_iff.1 hx
        exact hns x (by rw [hys]; exact List.mem_cons_self _ _)
      case hl =>
        intro x hx
        exact hns x (List.mem_of_getLast?_eq_some hx)
    show classifySpec (pyStrip s) = "email"
    rw [hstrip]
    unfold classifySpec
    rw [if_neg (by simp [hw]), if_neg (by simp [h1, h2]), if_neg (by simp [h3])]
    by_cases hm : startsWithCI s "mailto:" = true
    · rw [if_pos hm]
    · rw [if_neg hm, if_pos hshape]
  · rw [format_email_eq c]
    split
    · rename_i hm
      rw [format_email_eq (pyStrip c), pyStrip_idem c, if_pos hm]
    · rename_i hm
      have hstr : pyStrip ("mailto:" ++ pyStrip c) = "mailto:" ++ pyStrip c :=
        pyStrip_append "mailto:" (pyStrip c) (by decide) (pyStrip_idem c)
      rw [format_email_eq ("mailto:" ++ pyStrip c), hstr,
        if_pos (startsWithCI_append_self "mailto:" (pyStrip c) (by decide))]

theorem email_detect_format_w :
    detect_type "a@b.c" = "email" ∧
    format_content "a@b.c" "email" =
      (if startsWithCI (pyStrip "a@b.c") "mailto:" = true then pyStrip "a@b.c"
        else "mailto:" ++ pyStrip "a@b.c") ∧
    format_content (format_content "a@b.c" "email") "email" =
      format_content "a@b.c" "email" :=
  email_detect_format "a@b.c" "a@b.c" (by decide) (by decide) (by decide) (by decide)
    (by decide)

/- ------------------------------------------------------------------ -/
/- C3: collision-free output path resolution                           -/
/- ------------------------------------------------------------------ -/

theorem stem_succ_png (archive_dir base_name : String) (k : Nat) :
    pathJoin archive_dir (base_name ++ "-" ++ toString (k + 2) ++ ".png") =
      pngOf archive_dir base_name (k + 1) := by
  unfold pngOf stemName
  rw [String.append_assoc, String.append_assoc]

theorem stem_succ_pdf (archive_dir base_name : String) (k : Nat) :
    pathJoin archive_dir (base_name ++ "-" ++ toString (k + 2) ++ ".pdf") =
      pdfOf archive_dir base_name (k + 1) := by
  unfold pdfOf stemName
  rw [String.append_assoc, String.append_assoc]

theorem resolveGo_correct (fs : String → Bool) (dir base : String) (i : Nat)
    (hpng : fs (pngOf dir base i) = false) (hpdf : fs (pdfOf dir base i) = false) :
    ∀ fuel k, k ≤ i →
      (∀ j, k ≤ j → j < i → (fs (pngOf dir base j) = true ∨ fs (pdfOf dir base j) = true)) →
      i - k ≤ fuel →
      resolveGo fs dir base fuel (pngOf dir base k) (pdfOf dir base k) (k + 2) =
        some (pngOf dir base i, pdfOf dir base i) := by
  intro fuel
  induction fuel with
  | zero =>
    intro k hk hmin hfuel
    have hki : k = i := by omega
    subst hki
    unfold resolveGo
    rw [hpng, hpdf]
    rfl
  | succ f ih =>
    intro k hk hmin hfuel
    by_cases hki : k = i
    · subst hki
      unfold resolveGo
      rw [hpng, hpdf]
      rfl
    · have hklt : k < i := Nat.lt_of_le_of_ne hk hki
      have hbad := hmin k (Nat.le_refl k) hklt
      have hcond : (fs (pngOf dir base k) || fs (pdfOf dir base k)) = true := by
        rcases hbad with h | h <;> simp [h]
      unfold resolveGo
      rw [if_pos hcond, stem_succ_png, stem_succ_pdf]
      exact ih (k + 1) (by omega) (fun j hj1 hj2 => hmin j (by omega) hj2) (by omega)

/-- C3: whenever candidate stem `i` (counting `base_name` as 0 and
`base_name-(i+1)` for later ones) is the first whose `.png` and `.pdf`
paths are both absent, and the loop has fuel to reach it, `resolve_paths`
returns exactly that stem's pair — and neither returned path exists in the
filesystem at that point. -/
theorem resolve_paths_first_free (fs : String → Bool) (dir base : String)
    (fuel i : Nat)
    (hpng : fs (pngOf dir base i) = false) (hpdf : fs (pdfOf dir base i) = false)
    (hmin : ∀ j, j < i → (fs (pngOf dir base j) = true ∨ fs (pdfOf dir base j) = true))
    (hfuel : i ≤ fuel) :
    resolve_paths fs dir base fuel = some (pngOf dir base i, pdfOf dir base i) ∧
    fs (pngOf dir base i) = false ∧ fs (pdfOf dir base i) = false := by
  refine ⟨?_, hpng, hpdf⟩
  exact resolveGo_correct fs dir base i hpng hpdf fuel 0 (Nat.zero_le i)
    (fun j hj1 hj2 => hmin j hj2) (by omega)

theorem resolve_paths_first_free_w :
    resolve_paths (fun s => s == "d/b.png") "d" "b" 1 =
      some (pngOf "d" "b" 1, pdfOf "d" "b" 1) ∧
    (fun s => s == "d/b.png") (pngOf "d" "b" 1) = false ∧
    (fun s => s == "d/b.png") (pdfOf "d" "b" 1) = false :=
  resolve_paths_first_free (fun s => s == "d/b.png") "d" "b" 1 1 (by decide) (by decide)
    (fun j hj => by
      have hj0 : j = 0 := by omega
      subst hj0
      exact Or.inl (by decide)) (by decide)

/- ------------------------------------------------------------------ -/
/- C5: filename slug                                                   -/
/- ------------------------------------------------------------------ -/

theorem uint32_le_iff {a b : UInt32} : a ≤ b ↔ a.toNat ≤ b.toNat :=
  Iff.trans UInt32.le_def BitVec.le_def

theorem char_isUpper_iff (c : Char) : c.isUpper = true ↔ 65 ≤ c.toNat ∧ c.toNat ≤ 90 := by
  have h1 : ((65 : UInt32)).toNat = 65 := rfl
  have h2 : ((90 : UInt32)).toNat = 90 := rfl
  unfold Char.isUpper
  rw [Bool.and_eq_true, decide_eq_true_eq, decide_eq_true_eq, ge_iff_le,
    uint32_le_iff, uint32_le_iff, h1, h2]
  exact Iff.rfl

theorem char_isLower_iff (c : Char) : c.isLower = true ↔ 97 ≤ c.toNat ∧ c.toNat ≤ 122 := by
  have h1 : ((97 : UInt32)).toNat = 97 := rfl
  have h2 : ((122 : UInt32)).toNat = 122 := rfl
  unfold Char.isLower
  rw [Bool.and_eq_true, decide_eq_true_eq, decide_eq_true_eq, ge_iff_le,
    uint32_le_iff, uint32_le_iff, h1, h2]
  exact Iff.rfl

theorem char_isDigit_iff (c : Char) : c.isDigit = true ↔ 48 ≤ c.toNat ∧ c.toNat ≤ 57 := by
  have h1 : ((48 : UInt32)).toNat = 48 := rfl
  have h2 : ((57 : UInt32)).toNat = 57 := rfl
  unfold Char.isDigit
  rw [Bool.and_eq_true, decide_eq_true_eq, decide_eq_true_eq, ge_iff_le,
    uint32_le_iff, uint32_le_iff, h1, h2]
  exact Iff.rfl

theorem toLower_word {c : Char} (h : isWordChar c = true) :
    isWordChar (Char.toLower c) = true ∧ (Char.toLower c).isUpper = false := by
  have hn : (48 ≤ c.toNat ∧ c.toNat ≤ 57) ∨ (65 ≤ c.toNat ∧ c.toNat ≤ 90) ∨
      (97 ≤ c.toNat ∧ c.toNat ≤ 122) ∨ c.toNat = 95 := by
    unfold isWordChar Char.isAlphanum Char.isAlpha at h
    simp only [Bool.or_eq_true] at h
    rcases h with ((hu | hl) | hd) | he
    · exact Or.inr (Or.inl ((char_isUpper_iff c).1 hu))
    · exact Or.inr (Or.inr (Or.inl ((char_isLower_iff c).1 hl)))
    · exact Or.inl ((char_isDigit_iff c).1 hd)
    · have hue : c = '_' := by simpa using he
      rw [hue]
      exact Or.inr (Or.inr (Or.inr rfl))
  unfold Char.toLower
  dsimp only
  split
  · rename_i hcond
    have hres : (Char.ofNat (c.toNat + 32)).toNat = c.toNat + 32 :=
      toNat_ofNat_lt (by omega)
    constructor
    · have hlow : (Char.ofNat (c.toNat + 32)).isLower = true :=
        (char_isLower_iff _).2 (by rw [hres]; omega)
      unfold isWordChar Char.isAlphanum Char.isAlpha
      rw [hlow]
      simp
    · rw [Bool.eq_false_iff, Ne, char_isUpper_iff, hres]
      omega
  · rename_i hcond
    refine ⟨h, ?_⟩
    rw [Bool.eq_false_iff, Ne, char_isUpper_iff]
    omega

theorem collapseAux_length (b : Bool) (l : List Char) :
    (collapseAux b l).length ≤ l.length := by
  induction l generalizing b with
  | nil => simp [collapseAux]
  | cons c rest ih =>
    unfold collapseAux
    split
    · split
      · have := ih true
        simp only [List.length_cons]
        omega
      · have := ih true
        simp only [List.length_cons]
        omega
    · have := ih false
      simp only [List.length_cons]
      omega

theorem collapseAux_mem {b : Bool} {l : List Char} {x : Char}
    (hx : x ∈ collapseAux b l) :
    x = '-' ∨ (x ∈ l ∧ isSpaceChar x = false) := by
  induction l generalizing b with
  | nil => simp [collapseAux] at hx
  | cons c rest ih =>
    unfold collapseAux at hx
    split at hx
    · split at hx
      · rcases ih hx with h | h
        · exact Or.inl h
        · exact Or.inr ⟨List.mem_cons_of_mem _ h.1, h.2⟩
      · rcases List.mem_cons.1 hx with rfl | hx2
        · exact Or.inl rfl
        · rcases ih hx2 with h | h
          · exact Or.inl h
          · exact Or.inr ⟨List.mem_cons_of_mem _ h.1, h.2⟩
    · rename_i hc
      rcases List.mem_cons.1 hx with rfl | hx2
      · exact Or.inr ⟨List.mem_cons_self _ _, by simpa using hc⟩
      · rcases ih hx2 with h | h
        · exact Or.inl h
        · exact Or.inr ⟨List.mem_cons_of_mem _ h.1, h.2⟩

theorem stripL_sublist (l : List Char) : List.Sublist (pyStripL l) l :=
  List.Sublist.trans (List.IsPrefix.sublist ( List.rdropWhile_prefix _ _))
    (List.dropWhile_sublist _)

theorem slug_part_props (label : String) :
    ((slug_part label).data.all
      (fun c => (isWordChar c && !c.isUpper) || c == '-')) = true ∧
    (slug_part label).length ≤ 50 ∧ slug_part label ≠ "" := by
  unfold slug_part
  dsimp only
  split
  · exact ⟨by decide, by decide, by decide⟩
  · rename_i hne
    refine ⟨?_, ?_, ?_⟩
    · rw [List.all_eq_true]
      intro x hx
      have hx2 : x ∈ (collapseWs (pyStripL ((label.data.filter keepChar).take 50))).map
          Char.toLower := hx
      obtain ⟨y, hy, hxy⟩ := List.mem_map.1 hx2
      rcases collapseAux_mem hy with rfl | ⟨hyl, hys⟩
      · rw [← hxy]
        decide
      · have hyk : keepChar y = true := by
          have ht : y ∈ (label.data.filter keepChar).take 50 :=
            (stripL_sublist _).subset hyl
          have hf : y ∈ label.data.filter keepChar := (List.take_sublist _ _).subset ht
          exact (List.mem_filter.1 hf).2
        unfold keepChar at hyk
        simp only [Bool.or_eq_true] at hyk
        rcases hyk with (hw | hs) | hd
        · rw [← hxy]
          have hword := toLower_word hw
          rw [hword.1, hword.2]
          simp
        · rw [hys] at hs
          exact Bool.noConfusion hs
        · have hy2 : y = '-' := by simpa using hd
          rw [← hxy, hy2]
          decide
    · show ((collapseWs (pyStripL ((label.data.filter keepChar).take 50))).map
        Char.toLower).length ≤ 50
      rw [List.length_map]
      have h1 := collapseAux_length false (pyStripL ((label.data.filter keepChar).take 50))
      have h2 := (stripL_sublist ((label.data.filter keepChar).take 50)).length_le
      have h3 := List.length_take_le 50 (label.data.filter keepChar)
      unfold collapseWs
      omega
    · intro hcontra
      exact hne (by simpa using congrArg String.data hcontra)

/-- C5: `make_filename` equals the spec's reference pipeline, it is the slug
followed by `_` and the supplied date string, and the slug contains only
lowercase word characters and hyphens, has length at most 50, and is never
empty. -/
theorem make_filename_props (label today : String) :
    make_filename label today = makeFilenameSpec label today ∧
    make_filename label today = slug_part label ++ "_" ++ today ∧
    ((slug_part label).data.all
      (fun c => (isWordChar c && !c.isUpper) || c == '-')) = true ∧
    (slug_part label).length ≤ 50 ∧ slug_part label ≠ "" := by
  have h := slug_part_props label
  exact ⟨rfl, rfl, h.1, h.2.1, h.2.2⟩
